import Mathlib

/-!
# Verification of `src/utilities/validate_markdown.py`

A shallow embedding of the markdown cheatsheet validator.  Documents are
lists of lines, a line is a `List Char` (the Python code splits the file
content on a newline character and works line by line).  Each
`validate_*` method of `MarkdownValidator` is embedded as a function from
the list of lines to the list of findings it appends, and `validate`
assembles them in the order the Python code runs the checks.
-/

set_option maxHeartbeats 1000000

namespace ValidateMarkdown

/-- Whitespace test used by Python's `str.strip`, `str.isspace` and by the
`\s` class of the `re` module: ASCII whitespace together with the Unicode
whitespace code points. -/
def pyIsSpace (c : Char) : Bool :=
  c.toNat = 0x20 || (0x09 ≤ c.toNat && c.toNat ≤ 0x0d) ||
  (0x1c ≤ c.toNat && c.toNat ≤ 0x1f) || c.toNat = 0x85 || c.toNat = 0xa0 ||
  c.toNat = 0x1680 || (0x2000 ≤ c.toNat && c.toNat ≤ 0x200a) ||
  c.toNat = 0x2028 || c.toNat = 0x2029 || c.toNat = 0x202f ||
  c.toNat = 0x205f || c.toNat = 0x3000

/-- Python `str.lstrip()` with the default whitespace set. -/
def pyLstrip (l : List Char) : List Char := l.dropWhile pyIsSpace

/-- Python `str.rstrip()` with the default whitespace set. -/
def pyRstrip (l : List Char) : List Char := (l.reverse.dropWhile pyIsSpace).reverse

/-- Python `str.strip()` with the default whitespace set. -/
def pyStrip (l : List Char) : List Char := pyRstrip (pyLstrip l)

/-- Decimal rendering of a number, as Python string interpolation does. -/
def natToChars (n : Nat) : List Char := (Nat.repr n).data

/-- Python `content.split('\n')`: always returns at least one (possibly
empty) piece, never drops empty pieces. -/
def splitLines : List Char → List (List Char)
  | [] => [[]]
  | c :: rest =>
    if c = '\n' then [] :: splitLines rest
    else
      match splitLines rest with
      | l :: ls => (c :: l) :: ls
      | [] => [[c]]

/-- The backtick character (code point 96). -/
def btick : Char := Char.ofNat 96

/-- The three-backtick code fence marker. -/
def fenceMarker : List Char := [btick, btick, btick]

/-- The error findings `MarkdownValidator` can append to `self.errors`,
with the 1-based line number they are reported at (the constant message
text lives in `renderErr`). -/
inductive Err where
  | fileNotFound (path : List Char)
  | readError (msg : List Char)
  | noH1Title (line : Nat)
  | emptyH1 (line : Nat)
  | unclosedCode (line : Nat)
  | emptyLinkText (line : Nat)
  | emptyLinkUrl (line : Nat)
  | emptyHeading (line : Nat)
deriving DecidableEq, Repr

/-- The warning findings `MarkdownValidator` can append to
`self.warnings`.  The table-of-contents warning carries no line number in
the Python code; the heading-skip warning carries the two levels printed
in its message. -/
inductive Warn where
  | noToc
  | headingSkip (line prev cur : Nat)
  | codeNoLang (line : Nat)
  | trailingWs (line : Nat)
  | manyBlanks (line : Nat)
  | listIndent (line : Nat)
deriving DecidableEq, Repr

/-- The exact message string the Python code appends for each error. -/
def renderErr : Err → List Char
  | .fileNotFound p => "File not found: ".data ++ p
  | .readError m => "Error reading file: ".data ++ m
  | .noH1Title n =>
      "Line ".data ++ natToChars n ++ ": File should start with H1 title (# Title)".data
  | .emptyH1 n => "Line ".data ++ natToChars n ++ ": H1 title is empty".data
  | .unclosedCode n => "Line ".data ++ natToChars n ++ ": Unclosed code block".data
  | .emptyLinkText n => "Line ".data ++ natToChars n ++ ": Empty link text".data
  | .emptyLinkUrl n => "Line ".data ++ natToChars n ++ ": Empty link URL".data
  | .emptyHeading n => "Line ".data ++ natToChars n ++ ": Empty heading found".data

/-- The exact message string the Python code appends for each warning. -/
def renderWarn : Warn → List Char
  | .noToc => "No 'Table of Contents' section found in first 20 lines".data
  | .headingSkip n p c =>
      "Line ".data ++ natToChars n ++ ": Heading level skipped (H".data ++
      natToChars p ++ " -> H".data ++ natToChars c ++ ")".data
  | .codeNoLang n =>
      "Line ".data ++ natToChars n ++ ": Code block without language identifier".data
  | .trailingWs n => "Line ".data ++ natToChars n ++ ": Trailing whitespace detected".data
  | .manyBlanks n =>
      "Line ".data ++ natToChars n ++ ": More than 2 consecutive blank lines".data
  | .listIndent n =>
      "Line ".data ++ natToChars n ++
      ": Inconsistent list indentation (should be multiples of 2 spaces)".data

/-- The loop `for i, line in enumerate(self.lines)` appending `f i line` findings
per line, starting at index `i`. -/
def goLines (f : Nat → List Char → List α) : Nat → List (List Char) → List α
  | _, [] => []
  | i, l :: rest => f i l ++ goLines f (i + 1) rest

/-- Loop body of `validate_h1_title`: skip blank lines, check the first
non-blank line and stop (the Python loop runs `break` in every branch of
`if line.strip():`). -/
def h1Go : Nat → List (List Char) → List Err
  | _, [] => []
  | i, l :: rest =>
    if pyStrip l = [] then h1Go (i + 1) rest
    else if ¬ (['#', ' '].isPrefixOf l) then [.noH1Title (i + 1)]
    else if pyStrip l = ['#'] then [.emptyH1 (i + 1)]
    else []

/-- Embeds `MarkdownValidator.validate_h1_title`. -/
def validate_h1_title (lines : List (List Char)) : List Err := h1Go 0 lines

/-- The anchored, case-insensitive match of `^## Table of Contents` used
by `validate_table_of_contents` (only ASCII letters occur in the
pattern). -/
def tocMatch (l : List Char) : Bool :=
  ("## table of contents".data).isPrefixOf (l.map Char.toLower)

/-- Embeds `MarkdownValidator.validate_table_of_contents`. -/
def validate_table_of_contents (lines : List (List Char)) : List Warn :=
  if (lines.take 20).any tocMatch then [] else [.noToc]

/-- Length of the maximal run of leading hash characters. -/
def leadingHashes (l : List Char) : Nat := (l.takeWhile (fun c => c = '#')).length

/-- Backtracking tail of `\s+(.+)` after the first whitespace character
was consumed: at each position `\s+` may stop (then `.` must match a
non-newline character) or extend over a further whitespace character. -/
def dotReach : List Char → Bool
  | [] => false
  | c :: rest => ¬ (c = '\n') || (pyIsSpace c && dotReach rest)

/-- The anchored match of `^(#{1,6})\s+(.+)` used by
`validate_headings_hierarchy` and the level `len(match.group(1))` when it
matches.  The hash run must be taken whole (a shorter take leaves a hash
where `\s+` needs whitespace), and `re.match` does not require the match
to span the whole line. -/
def headingLevel (l : List Char) : Option Nat :=
  let k := leadingHashes l
  if 1 ≤ k ∧ k ≤ 6 then
    match l.drop k with
    | c :: rest => if pyIsSpace c && dotReach rest then some k else none
    | [] => none
  else none

/-- Loop body of `validate_headings_hierarchy` carrying
`previous_level`. -/
def hhGo : Nat → Nat → List (List Char) → List Warn
  | _, _, [] => []
  | i, prev, l :: rest =>
    match headingLevel l with
    | some cur =>
      (if prev + 1 < cur ∧ 0 < prev then [.headingSkip (i + 1) prev cur] else []) ++
      hhGo (i + 1) cur rest
    | none => hhGo (i + 1) prev rest

/-- Embeds `MarkdownValidator.validate_headings_hierarchy`. -/
def validate_headings_hierarchy (lines : List (List Char)) : List Warn :=
  hhGo 0 0 lines

/-- The test `line.startswith` applied to the fence marker (three backticks). -/
def isFence (l : List Char) : Bool := fenceMarker.isPrefixOf l

/-- Loop of `validate_code_blocks` carrying `in_code_block` and
`code_block_start` (initialised to `-1` in the Python code, hence an
`Int`); the unclosed-block error is appended after the loop. -/
def cbGo : Nat → Bool → Int → List (List Char) → List Err × List Warn
  | _, inB, start, [] => (if inB then [.unclosedCode (start + 1).toNat] else [], [])
  | i, inB, start, l :: rest =>
    if isFence l then
      if inB then cbGo (i + 1) false start rest
      else
        let ws := if pyStrip l = fenceMarker then [Warn.codeNoLang (i + 1)] else []
        let res := cbGo (i + 1) true (Int.ofNat i) rest
        (res.1, ws ++ res.2)
    else cbGo (i + 1) inB start rest

/-- Embeds `MarkdownValidator.validate_code_blocks`, returning the errors and
warnings it appends. -/
def validate_code_blocks (lines : List (List Char)) : List Err × List Warn :=
  cbGo 0 false (-1) lines

/-- The `[^\]]+` group: maximal run of non-bracket characters. -/
def linkText (s : List Char) : List Char := s.takeWhile (fun c => c ≠ ']')

/-- The `[^)]*` group: maximal run of non-parenthesis characters. -/
def linkUrl (s : List Char) : List Char := s.takeWhile (fun c => c ≠ ')')

/-- One attempted match of `\[([^\]]+)\]\(([^)]*)\)` starting right after
an opening bracket: the link text is the maximal nonempty run of
non-bracket characters, which must be followed by a closing bracket, an
opening parenthesis, the maximal run of non-parenthesis characters (the
URL, possibly empty) and a closing parenthesis.  Returns the text, the
URL and the remainder of the line after the match. -/
def tryLink (s : List Char) : Option (List Char × List Char × List Char) :=
  if linkText s = [] then none
  else
    match s.drop (linkText s).length with
    | ']' :: '(' :: afterPar =>
      match afterPar.drop (linkUrl afterPar).length with
      | ')' :: rest => some (linkText s, linkUrl afterPar, rest)
      | _ => none
    | _ => none

/-- The `finditer` scan of the link pattern over one line: scan left to right, at
each opening bracket attempt a match; on success resume after the match,
on failure resume at the next character.  The scan consumes at least one
character per step, so a fuel of one unit per character keeps the
recursion structural; `scanLinks` supplies enough fuel and
`scanLinks_cons` recovers the natural recursion. -/
def scanLinksAux : Nat → List Char → List (List Char × List Char)
  | 0, _ => []
  | _, [] => []
  | fuel + 1, c :: rest =>
    if c = '[' then
      match tryLink rest with
      | some (t, u, r) => (t, u) :: scanLinksAux fuel r
      | none => scanLinksAux fuel rest
    else scanLinksAux fuel rest

/-- The `finditer` scan of the link pattern over one line. -/
def scanLinks (s : List Char) : List (List Char × List Char) :=
  scanLinksAux s.length s

/-- Per-match error emission of `validate_links`: an empty-text error,
then an empty-URL error, each when the respective group is empty. -/
def matchErrs (i : Nat) : List (List Char × List Char) → List Err
  | [] => []
  | (t, u) :: rest =>
    (if t = [] then [Err.emptyLinkText (i + 1)] else []) ++
    (if u = [] then [Err.emptyLinkUrl (i + 1)] else []) ++ matchErrs i rest

/-- Embeds `MarkdownValidator.validate_links`. -/
def validate_links (lines : List (List Char)) : List Err :=
  goLines (fun i l => matchErrs i (scanLinks l)) 0 lines

/-- The anchored match of `^(#{1,6})\s*$` used by
`validate_empty_headings`: one to six leading hashes followed only by
whitespace (`$` also matches just before a final newline, itself a
whitespace character, so this is exact). -/
def emptyHeadingB (l : List Char) : Bool :=
  let k := leadingHashes l
  1 ≤ k && k ≤ 6 && (l.drop k).all pyIsSpace

/-- Embeds `MarkdownValidator.validate_empty_headings`. -/
def validate_empty_headings (lines : List (List Char)) : List Err :=
  goLines (fun i l => if emptyHeadingB l then [Err.emptyHeading (i + 1)] else []) 0 lines

/-- Embeds `MarkdownValidator.validate_trailing_whitespace`
(`line != line.rstrip()`). -/
def validate_trailing_whitespace (lines : List (List Char)) : List Warn :=
  goLines (fun i l => if pyRstrip l = l then [] else [Warn.trailingWs (i + 1)]) 0 lines

/-- Loop of `validate_consecutive_blank_lines` carrying `blank_count`. -/
def cblGo : Nat → Nat → List (List Char) → List Warn
  | _, _, [] => []
  | i, cnt, l :: rest =>
    if pyStrip l = [] then
      (if 2 < cnt + 1 then [Warn.manyBlanks (i + 1)] else []) ++
      cblGo (i + 1) (cnt + 1) rest
    else cblGo (i + 1) 0 rest

/-- Embeds `MarkdownValidator.validate_consecutive_blank_lines`. -/
def validate_consecutive_blank_lines (lines : List (List Char)) : List Warn :=
  cblGo 0 0 lines

/-- Tail `\s+(.+)` of the two list patterns (same backtracking as in the
heading pattern). -/
def listTailOk : List Char → Bool
  | [] => false
  | c :: rest => pyIsSpace c && dotReach rest

/-- The anchored match of `^(\s*)([-*+])\s+(.+)` and the length of its
indent group. -/
def unorderedIndent (l : List Char) : Option Nat :=
  let ind := l.takeWhile pyIsSpace
  match l.drop ind.length with
  | m :: rest =>
    if (m = '-' || m = '*' || m = '+') && listTailOk rest then some ind.length else none
  | [] => none

/-- The anchored match of `^(\s*)(\d+\.)\s+(.+)` and the length of its
indent group. -/
def orderedIndent (l : List Char) : Option Nat :=
  let ind := l.takeWhile pyIsSpace
  let after := l.drop ind.length
  let digits := after.takeWhile Char.isDigit
  if digits = [] then none
  else
    match after.drop digits.length with
    | '.' :: rest => if listTailOk rest then some ind.length else none
    | _ => none

/-- Per-line warnings of `validate_list_formatting` (the unordered check
runs before the ordered one). -/
def listLineWarns (i : Nat) (l : List Char) : List Warn :=
  (match unorderedIndent l with
   | some n => if n % 2 ≠ 0 then [Warn.listIndent (i + 1)] else []
   | none => []) ++
  (match orderedIndent l with
   | some n => if n % 2 ≠ 0 then [Warn.listIndent (i + 1)] else []
   | none => [])

/-- Embeds `MarkdownValidator.validate_list_formatting`. -/
def validate_list_formatting (lines : List (List Char)) : List Warn :=
  goLines listLineWarns 0 lines

/-- Outcome of `read_file`: the content on success, or the two failure
modes the Python code catches (`FileNotFoundError` and any other
exception, whose message it records). -/
inductive ReadOutcome where
  | ok (content : List Char)
  | notFound
  | failed (msg : List Char)

/-- The state of the validator after `validate` ran: the accumulated
error and warning lists and the returned boolean. -/
structure ValidationResult where
  errors : List Err
  warnings : List Warn
  passed : Bool
deriving DecidableEq, Repr

/-- Embeds `MarkdownValidator.validate`: on a read failure, record the single
read error and return `False` without running any check; otherwise run
the nine checks in source order (errors and warnings are appended in the
order the checks run) and return `len(self.errors) == 0`. -/
def validate (path : List Char) (r : ReadOutcome) : ValidationResult :=
  match r with
  | .notFound => ⟨[.fileNotFound path], [], false⟩
  | .failed m => ⟨[.readError m], [], false⟩
  | .ok content =>
    let lines := splitLines content
    let errors :=
      validate_h1_title lines ++ (validate_code_blocks lines).1 ++
      validate_links lines ++ validate_empty_headings lines
    let warnings :=
      validate_table_of_contents lines ++ validate_headings_hierarchy lines ++
      (validate_code_blocks lines).2 ++ validate_trailing_whitespace lines ++
      validate_consecutive_blank_lines lines ++ validate_list_formatting lines
    ⟨errors, warnings, errors.length == 0⟩

/-- The 70-character separator rule of `get_report`. -/
def sep70 : List Char := List.replicate 70 '='

/-- Embeds `MarkdownValidator.get_report`, as the list of report lines that the
Python code joins with newlines; `errors` and `warnings` are the message
strings accumulated by the checks. -/
def get_report (name : List Char) (errors warnings : List (List Char)) :
    List (List Char) :=
  ["\nValidation Report: ".data ++ name, sep70] ++
  (if errors = [] ∧ warnings = [] then
    ["Status: PASSED".data, "No issues found.".data]
   else
    (if errors = [] then []
     else ("\nERRORS (".data ++ natToChars errors.length ++ "):".data) ::
       errors.map (fun e => "  - ".data ++ e)) ++
    (if warnings = [] then []
     else ("\nWARNINGS (".data ++ natToChars warnings.length ++ "):".data) ::
       warnings.map (fun w => "  - ".data ++ w)) ++
    ["\nStatus: ".data ++
      (if errors = [] then "PASSED (with warnings)".data else "FAILED".data)]) ++
  [sep70]

/-- Line `n` (0-based) of the document exists and is blank in the sense
of `line.strip()` being falsy. -/
def blankAt (ls : List (List Char)) (n : Nat) : Prop :=
  ∃ l, ls[n]? = some l ∧ pyStrip l = []

/-- Window condition for the consecutive-blank-lines invariant: the two
positions before line `d` are blank, where positions before the start of
the scanned suffix are accounted for by the entry count `cnt`. -/
def winOK (cnt : Nat) (ls : List (List Char)) : Nat → Prop
  | 0 => 2 ≤ cnt
  | 1 => blankAt ls 0 ∧ 1 ≤ cnt
  | d + 2 => blankAt ls (d + 1) ∧ blankAt ls d

/-- Number of fence lines (lines starting with three backticks). -/
def countFences (ls : List (List Char)) : Nat := ls.countP isFence

/-- The 0-based index of the last fence line, counting from base index
`i`. -/
def lastFence : Nat → List (List Char) → Option Nat
  | _, [] => none
  | i, l :: rest =>
    match lastFence (i + 1) rest with
    | some j => some j
    | none => if isFence l then some i else none

/-! ## Supporting lemmas -/

theorem tryLink_length {s t u r : List Char} (h : tryLink s = some (t, u, r)) :
    r.length < s.length := by
  unfold tryLink at h
  split at h
  · exact absurd h (by simp)
  · split at h
    next afterPar heq =>
      split at h
      next rest heq2 =>
        simp only [Option.some.injEq, Prod.mk.injEq] at h
        obtain ⟨-, -, hr⟩ := h
        subst hr
        have e1 := congrArg List.length heq
        have e2 := congrArg List.length heq2
        simp only [List.length_drop, List.length_cons] at e1 e2
        have l1 : (linkText s).length ≤ s.length :=
          (List.takeWhile_prefix _).length_le
        have l2 : (linkUrl afterPar).length ≤ afterPar.length :=
          (List.takeWhile_prefix _).length_le
        omega
      next _ _ => exact absurd h (by simp)
    next _ _ => exact absurd h (by simp)

theorem scanLinksAux_congr : ∀ {fuel fuel' : Nat} {s : List Char},
    s.length ≤ fuel → s.length ≤ fuel' → scanLinksAux fuel s = scanLinksAux fuel' s := by
  intro fuel
  induction fuel with
  | zero =>
    intro fuel' s hs _
    have : s = [] := List.length_eq_zero.mp (Nat.le_zero.mp hs)
    subst this
    cases fuel' <;> rfl
  | succ fuel ih =>
    intro fuel' s hs hs'
    cases s with
    | nil => cases fuel' <;> rfl
    | cons c rest =>
      cases fuel' with
      | zero => exact absurd hs' (by simp)
      | succ fuel' =>
        simp only [List.length_cons, Nat.succ_le_succ_iff] at hs hs'
        show scanLinksAux (fuel + 1) (c :: rest) = scanLinksAux (fuel' + 1) (c :: rest)
        by_cases hc : c = '['
        · simp only [scanLinksAux, if_pos hc]
          cases htl : tryLink rest with
          | some v =>
            obtain ⟨t, u, r⟩ := v
            have hr : r.length < rest.length := tryLink_length htl
            show (t, u) :: scanLinksAux fuel r = (t, u) :: scanLinksAux fuel' r
            rw [ih (Nat.le_of_lt (Nat.lt_of_lt_of_le hr hs))
              (Nat.le_of_lt (Nat.lt_of_lt_of_le hr hs'))]
          | none =>
            show scanLinksAux fuel rest = scanLinksAux fuel' rest
            exact ih hs hs'
        · simp only [scanLinksAux, if_neg hc]
          exact ih hs hs'

theorem scanLinks_nil : scanLinks [] = [] := rfl

theorem scanLinks_cons (c : Char) (rest : List Char) :
    scanLinks (c :: rest) =
      if c = '[' then
        match tryLink rest with
        | some (t, u, r) => (t, u) :: scanLinks r
        | none => scanLinks rest
      else scanLinks rest := by
  show scanLinksAux (rest.length + 1) (c :: rest) = _
  by_cases hc : c = '['
  · simp only [scanLinksAux, if_pos hc]
    cases htl : tryLink rest with
    | some v =>
      obtain ⟨t, u, r⟩ := v
      have hr : r.length < rest.length := tryLink_length htl
      show (t, u) :: scanLinksAux rest.length r = (t, u) :: scanLinks r
      unfold scanLinks
      rw [scanLinksAux_congr (Nat.le_of_lt hr) (Nat.le_refl _)]
    | none => rfl
  · simp only [scanLinksAux, if_neg hc]
    rfl

theorem mem_goLines {α : Type} {f : Nat → List Char → List α} {x : α} :
    ∀ {i : Nat} {ls : List (List Char)},
      x ∈ goLines f i ls ↔ ∃ d l, ls[d]? = some l ∧ x ∈ f (i + d) l := by
  intro i ls
  induction ls generalizing i with
  | nil => simp [goLines]
  | cons l rest ih =>
    simp only [goLines, List.mem_append, ih]
    constructor
    · rintro (hx | ⟨d, l', hdl, hx⟩)
      · exact ⟨0, l, by simp, by simpa using hx⟩
      · refine ⟨d + 1, l', by simpa using hdl, ?_⟩
        have harith : i + 1 + d = i + (d + 1) := by omega
        rw [harith] at hx
        exact hx
    · rintro ⟨d, l', hdl, hx⟩
      cases d with
      | zero =>
        left
        simp only [List.getElem?_cons_zero, Option.some.injEq] at hdl
        subst hdl
        simpa using hx
      | succ d =>
        right
        refine ⟨d, l', by simpa using hdl, ?_⟩
        have harith : i + 1 + d = i + (d + 1) := by omega
        rw [harith]
        exact hx

theorem all_space_rstrip {l : List Char} (h : ∀ x ∈ l, pyIsSpace x = true) :
    pyRstrip l = [] := by
  unfold pyRstrip
  have : l.reverse.dropWhile pyIsSpace = [] :=
    List.dropWhile_eq_nil_iff.mpr (fun x hx => h x (List.mem_reverse.mp hx))
  rw [this, List.reverse_nil]

theorem all_space_strip {l : List Char} (h : ∀ x ∈ l, pyIsSpace x = true) :
    pyStrip l = [] := by
  unfold pyStrip pyLstrip
  rw [List.dropWhile_eq_nil_iff.mpr h]
  exact all_space_rstrip (by intro x hx; cases hx)

theorem beq_length_zero {α : Type} (es : List α) :
    ((es.length == 0) = true ↔ es = []) ∧ (es.length == 0) = es.isEmpty := by
  cases es <;> simp

/-! ## Claim theorems -/

/-- Claim C3. For every document (and for every read outcome), the
validation pass reports `passed = true` iff the accumulated error list is
empty; `passed` is computed from the error list alone, so warnings never
affect the outcome. -/
theorem claim_C3 (path : List Char) (r : ReadOutcome) :
    ((validate path r).passed = true ↔ (validate path r).errors = []) ∧
      (validate path r).passed = (validate path r).errors.isEmpty := by
  cases r with
  | ok content =>
    exact ⟨(beq_length_zero _).1, (beq_length_zero _).2⟩
  | notFound => simp [validate]
  | failed m => simp [validate]

theorem claim_C3_witness :
    ((validate ("a.md".data) (ReadOutcome.ok ("# Title".data))).passed = true ↔
      (validate ("a.md".data) (ReadOutcome.ok ("# Title".data))).errors = []) ∧
      (validate ("a.md".data) (ReadOutcome.ok ("# Title".data))).passed = true :=
  ⟨(claim_C3 ("a.md".data) (ReadOutcome.ok ("# Title".data))).1, by decide⟩

/-- Claim C6. When reading the document fails (file not found or any other
read error), `validate` records exactly the single read error, emits no
warnings, runs none of the rule checks (the result is literally the
single-error state) and returns a failed result; the embedding is total,
so no exception escapes. -/
theorem claim_C6 (path msg : List Char) :
    validate path ReadOutcome.notFound =
        ⟨[Err.fileNotFound path], [], false⟩ ∧
      validate path (ReadOutcome.failed msg) = ⟨[Err.readError msg], [], false⟩ ∧
      (validate path ReadOutcome.notFound).errors.length = 1 ∧
      (validate path (ReadOutcome.failed msg)).errors.length = 1 :=
  ⟨rfl, rfl, rfl, rfl⟩

theorem claim_C6_witness :
    validate ("missing.md".data) ReadOutcome.notFound =
      ⟨[Err.fileNotFound ("missing.md".data)], [], false⟩ :=
  (claim_C6 ("missing.md".data) ("boom".data)).1

theorem h1Go_append_blank :
    ∀ (pre : List (List Char)) (i : Nat) (rest : List (List Char)),
      (∀ x ∈ pre, pyStrip x = []) →
      h1Go i (pre ++ rest) = h1Go (i + pre.length) rest := by
  intro pre
  induction pre with
  | nil => intro i rest _; simp
  | cons p ps ih =>
    intro i rest hpre
    have hp : pyStrip p = [] := hpre p (by simp)
    show h1Go i (p :: (ps ++ rest)) = _
    simp only [h1Go, if_pos hp]
    rw [ih (i + 1) rest (fun x hx => hpre x (by simp [hx]))]
    have : i + 1 + ps.length = i + (p :: ps).length := by simp; omega
    rw [this]

/-- Claim C2, counterexample. The document whose single line is the bare
hash character `#` has a first non-blank line that trims to exactly `#`,
yet the title check emits the should-start-with-H1 error there and not
the H1-title-is-empty error: a bare `#` fails `line.startswith('# ')`,
so the `elif` that reports an empty title is never reached. -/
theorem claim_C2_counterexample :
    pyStrip ("#".data) = "#".data ∧
      validate_h1_title ["#".data] = [Err.noH1Title 1] ∧
      Err.emptyH1 1 ∉ validate_h1_title ["#".data] := by
  refine ⟨by decide, by decide, ?_⟩
  intro hmem
  have : validate_h1_title ["#".data] = [Err.noH1Title 1] := by decide
  rw [this] at hmem
  simp at hmem

/-- Claim C2, amended. For every document whose first non-blank line trims
to exactly `#`, the title check emits exactly one error at that line:
the H1-title-is-empty error when the line starts with the two characters
hash-space (for example the line hash-space itself), and otherwise the
should-start-with-H1-title error (for example at the bare line `#`). -/
theorem claim_C2_amended (pre post : List (List Char)) (l : List Char)
    (hpre : ∀ x ∈ pre, pyStrip x = []) (hl : pyStrip l = ['#']) :
    validate_h1_title (pre ++ l :: post) =
      if ['#', ' '].isPrefixOf l then [Err.emptyH1 (pre.length + 1)]
      else [Err.noH1Title (pre.length + 1)] := by
  unfold validate_h1_title
  rw [h1Go_append_blank pre 0 (l :: post) hpre, Nat.zero_add]
  have hnb : ¬ (pyStrip l = []) := by rw [hl]; decide
  by_cases hp : ['#', ' '].isPrefixOf l
  · rw [if_pos hp]
    simp [h1Go, hnb, hp, hl]
  · rw [if_neg hp]
    simp [h1Go, hnb, hp]

theorem claim_C2_witness :
    (∀ x ∈ ([[]] : List (List Char)), pyStrip x = []) ∧
      pyStrip ("# ".data) = [Char.ofNat 35] ∧
      validate_h1_title [[], "# ".data] = [Err.emptyH1 2] := by
  refine ⟨by decide, by decide, ?_⟩
  have h := claim_C2_amended [[]] [] ("# ".data) (by decide) (by decide)
  simp only [List.cons_append, List.nil_append] at h
  rw [h]
  decide

/-- Claim C9. Every line made of one or more whitespace characters gets the
trailing-whitespace warning (`line != line.rstrip()` holds because the
right-strip empties it) and at the same time counts as blank for the
consecutive-blank-lines check (`line.strip()` is empty); a document of
three whitespace-only lines shows one line receiving both warnings. -/
theorem claim_C9 :
    (∀ (ls : List (List Char)) (d : Nat) (l : List Char),
        ls[d]? = some l → l ≠ [] → l.all pyIsSpace = true →
        Warn.trailingWs (d + 1) ∈ validate_trailing_whitespace ls ∧
          pyStrip l = []) ∧
      Warn.trailingWs 3 ∈ validate_trailing_whitespace [" ".data, " ".data, " ".data] ∧
      Warn.manyBlanks 3 ∈
        validate_consecutive_blank_lines [" ".data, " ".data, " ".data] := by
  refine ⟨?_, by decide, by decide⟩
  intro ls d l hdl hne hall
  have hall' : ∀ x ∈ l, pyIsSpace x = true := List.all_eq_true.mp hall
  have hr : pyRstrip l = [] := all_space_rstrip hall'
  have hrs : ¬ (pyRstrip l = l) := by
    rw [hr]
    exact fun h => hne h.symm
  constructor
  · unfold validate_trailing_whitespace
    rw [mem_goLines]
    exact ⟨d, l, hdl, by rw [if_neg hrs]; simp⟩
  · exact all_space_strip hall'

theorem claim_C9_witness :
    ([" ".data] : List (List Char))[0]? = some (" ".data) ∧ " ".data ≠ [] ∧
      (" ".data).all pyIsSpace = true ∧
      (Warn.trailingWs 1 ∈ validate_trailing_whitespace [" ".data] ∧
        pyStrip (" ".data) = []) :=
  ⟨rfl, by decide, by decide,
    claim_C9.1 [" ".data] 0 (" ".data) rfl (by decide) (by decide)⟩

/-- Claim C10, counterexample. The line hash-space-space matches the
empty-heading shape `^(#{1,6})\s*$` and nevertheless also matches the
hierarchy pattern `^(#{1,6})\s+(.+)` (the dot of `.+` matches the second
space), so it does update `previous_level`: inserting it between an H2
and an H3 makes the hierarchy check emit a heading-level-skipped warning
that the same document without it does not produce. -/
theorem claim_C10_counterexample :
    emptyHeadingB ("#  ".data) = true ∧ headingLevel ("#  ".data) = some 1 ∧
      validate_headings_hierarchy ["## a".data, "#  ".data, "### b".data] =
        [Warn.headingSkip 3 1 3] ∧
      validate_headings_hierarchy ["## a".data, "### b".data] = [] := by
  decide

/-- Claim C10, amended. A newline-free line of the empty-heading shape
(one to six hashes followed only by whitespace) matches the hierarchy
heading pattern exactly when at least two whitespace characters follow
the hashes — `\s+` then consumes one of them and `.+` the next — and in
that case the level recorded is the number of leading hashes; with zero
or one trailing whitespace characters the line leaves the hierarchy
state unchanged. -/
theorem claim_C10_amended (l : List Char) (hnl : '\n' ∉ l)
    (he : emptyHeadingB l = true) :
    ((headingLevel l).isSome ↔ leadingHashes l + 2 ≤ l.length) ∧
      (headingLevel l = none ∨ headingLevel l = some (leadingHashes l)) := by
  have hk : 1 ≤ leadingHashes l ∧ leadingHashes l ≤ 6 ∧
      (l.drop (leadingHashes l)).all pyIsSpace = true := by
    unfold emptyHeadingB at he
    simp only [Bool.and_eq_true, decide_eq_true_eq] at he
    exact ⟨he.1.1, he.1.2, he.2⟩
  obtain ⟨hk1, hk6, hall⟩ := hk
  have hkle : leadingHashes l ≤ l.length := by
    unfold leadingHashes
    exact (List.takeWhile_prefix _).length_le
  have hlen : l.length = leadingHashes l + (l.drop (leadingHashes l)).length := by
    rw [List.length_drop]
    omega
  unfold headingLevel
  rw [if_pos ⟨hk1, hk6⟩]
  cases hd : l.drop (leadingHashes l) with
  | nil =>
    rw [hd] at hlen
    simp only [List.length_nil, Nat.add_zero] at hlen
    constructor
    · show (none : Option Nat).isSome = true ↔ _
      simp only [Option.isSome_none, Bool.false_eq_true, false_iff]
      omega
    · exact Or.inl rfl
  | cons c rest =>
    rw [hd] at hlen
    simp only [List.length_cons] at hlen
    have hc : pyIsSpace c = true := by
      rw [hd] at hall
      exact List.all_eq_true.mp hall c (by simp)
    cases rest with
    | nil =>
      simp only [List.length_nil, Nat.zero_add] at hlen
      have hcond : (pyIsSpace c && dotReach []) = false := by
        show (pyIsSpace c && false) = false
        exact Bool.and_false _
      constructor
      · show (if (pyIsSpace c && dotReach []) = true then
            some (leadingHashes l) else none).isSome = true ↔ _
        rw [hcond]
        simp only [Bool.false_eq_true, if_false, Option.isSome_none, false_iff]
        omega
      · refine Or.inl ?_
        show (if (pyIsSpace c && dotReach []) = true then
            some (leadingHashes l) else none) = none
        rw [hcond]
        simp
    | cons c2 rest2 =>
      simp only [List.length_cons] at hlen
      have hc2 : c2 ≠ '\n' := by
        intro hcc
        apply hnl
        have hmem : c2 ∈ l.drop (leadingHashes l) := by rw [hd]; simp
        rw [← hcc]
        exact List.mem_of_mem_drop hmem
      have hdr : dotReach (c2 :: rest2) = true := by
        show (decide (¬ (c2 = '\n')) || (pyIsSpace c2 && dotReach rest2)) = true
        simp only [Bool.or_eq_true, decide_eq_true_eq]
        exact Or.inl hc2
      have hcond : (pyIsSpace c && dotReach (c2 :: rest2)) = true := by
        rw [hc, hdr]
        rfl
      constructor
      · show (if (pyIsSpace c && dotReach (c2 :: rest2)) = true then
            some (leadingHashes l) else none).isSome = true ↔ _
        rw [hcond]
        simp only [if_true, Option.isSome_some, true_iff]
        omega
      · refine Or.inr ?_
        show (if (pyIsSpace c && dotReach (c2 :: rest2)) = true then
            some (leadingHashes l) else none) = some (leadingHashes l)
        rw [hcond]
        simp

theorem claim_C10_witness :
    '\n' ∉ "#  ".data ∧ emptyHeadingB ("#  ".data) = true ∧
      (((headingLevel ("#  ".data)).isSome ↔
          leadingHashes ("#  ".data) + 2 ≤ ("#  ".data).length) ∧
        (headingLevel ("#  ".data) = none ∨
          headingLevel ("#  ".data) = some (leadingHashes ("#  ".data)))) :=
  ⟨by decide, by decide, claim_C10_amended ("#  ".data) (by decide) (by decide)⟩

theorem tryLink_text_ne_nil {s t u r : List Char}
    (h : tryLink s = some (t, u, r)) : t ≠ [] := by
  unfold tryLink at h
  split at h
  next => exact absurd h (by simp)
  next hne =>
    split at h
    next afterPar heq =>
      split at h
      next rest heq2 =>
        simp only [Option.some.injEq, Prod.mk.injEq] at h
        obtain ⟨ht, -, -⟩ := h
        rw [← ht]
        exact hne
      next _ _ => exact absurd h (by simp)
    next _ _ => exact absurd h (by simp)

theorem scanLinksAux_text_ne_nil :
    ∀ (fuel : Nat) (s : List Char) (m : List Char × List Char),
      m ∈ scanLinksAux fuel s → m.1 ≠ [] := by
  intro fuel
  induction fuel with
  | zero =>
    intro s m hm
    exact absurd hm (by cases s <;> simp [scanLinksAux])
  | succ fuel ih =>
    intro s m hm
    cases s with
    | nil => exact absurd hm (by simp [scanLinksAux])
    | cons c rest =>
      simp only [scanLinksAux] at hm
      by_cases hc : c = '['
      · rw [if_pos hc] at hm
        cases htl : tryLink rest with
        | some v =>
          obtain ⟨t, u, r⟩ := v
          rw [htl] at hm
          simp only [List.mem_cons] at hm
          cases hm with
          | inl he =>
            subst he
            exact tryLink_text_ne_nil htl
          | inr hm => exact ih r m hm
        | none =>
          rw [htl] at hm
          exact ih rest m hm
      · rw [if_neg hc] at hm
        exact ih rest m hm

theorem scanLinks_text_ne_nil {s : List Char} {m : List Char × List Char}
    (hm : m ∈ scanLinks s) : m.1 ≠ [] :=
  scanLinksAux_text_ne_nil s.length s m hm

theorem matchErrs_all_url (i : Nat) :
    ∀ (ms : List (List Char × List Char)), (∀ m ∈ ms, m.1 ≠ []) →
      ∀ e ∈ matchErrs i ms, e = Err.emptyLinkUrl (i + 1) := by
  intro ms
  induction ms with
  | nil => intro _ e he; cases he
  | cons m ms ih =>
    obtain ⟨t, u⟩ := m
    intro hne e he
    have ht : t ≠ [] := hne (t, u) (by simp)
    simp only [matchErrs, if_neg ht, List.nil_append] at he
    by_cases hu : u = []
    · rw [if_pos hu] at he
      simp only [List.singleton_append, List.mem_cons] at he
      cases he with
      | inl h => exact h
      | inr h => exact ih (fun m hm => hne m (by simp [hm])) e h
    · rw [if_neg hu] at he
      simp only [List.nil_append] at he
      exact ih (fun m hm => hne m (by simp [hm])) e he

theorem matchErrs_url_mem (i n : Nat) :
    ∀ (ms : List (List Char × List Char)),
      (Err.emptyLinkUrl n ∈ matchErrs i ms ↔
        (n = i + 1 ∧ ∃ m ∈ ms, m.2 = [])) := by
  intro ms
  induction ms with
  | nil => simp [matchErrs]
  | cons m ms ih =>
    obtain ⟨t, u⟩ := m
    simp only [matchErrs, List.mem_append, ih, List.mem_cons]
    constructor
    · rintro ((hx | hx) | ⟨hn, m', hm', hu'⟩)
      · by_cases ht : t = []
        · rw [if_pos ht] at hx
          simp at hx
        · rw [if_neg ht] at hx
          cases hx
      · by_cases hu : u = []
        · rw [if_pos hu] at hx
          simp only [List.mem_singleton, Err.emptyLinkUrl.injEq] at hx
          exact ⟨hx, (t, u), Or.inl rfl, hu⟩
        · rw [if_neg hu] at hx
          cases hx
      · exact ⟨hn, m', Or.inr hm', hu'⟩
    · rintro ⟨hn, m', hm', hu'⟩
      cases hm' with
      | inl he =>
        left; right
        have hu : u = [] := by rw [he] at hu'; exact hu'
        rw [if_pos hu, hn]
        simp
      | inr hm' => right; exact ⟨hn, m', hm', hu'⟩

/-- Claim C1, counterexample. The link pattern requires at least one
character of link text (`[^\]]+`), so `[](url)` and `[]()` do not match
it at all: no finding is emitted for them, while the claim requires an
empty-link-text error (and, for `[]()`, both errors). -/
theorem claim_C1_counterexample :
    scanLinks ("[](url)".data) = [] ∧ scanLinks ("[]()".data) = [] ∧
      validate_links ["[](url)".data] = [] ∧ validate_links ["[]()".data] = [] ∧
      Err.emptyLinkText 1 ∉ validate_links ["[](url)".data] := by
  decide

/-- Claim C1, amended. Every occurrence the link pattern finds has nonempty
link text, so the empty-link-text error is unreachable and every error
the link check emits is an empty-link-URL error; that error is emitted at
line `d + 1` exactly when line `d` has an occurrence with an empty URL.
Of the claim's scenarios only `[text]()` produces a finding (the
empty-link-URL error); `[](url)` and `[]()` produce none. -/
theorem claim_C1_amended :
    (∀ (l : List Char) (m : List Char × List Char), m ∈ scanLinks l → m.1 ≠ []) ∧
      (∀ (ls : List (List Char)) (e : Err), e ∈ validate_links ls →
        ∃ n, e = Err.emptyLinkUrl n) ∧
      (∀ (ls : List (List Char)) (n : Nat),
        Err.emptyLinkUrl n ∈ validate_links ls ↔
          ∃ d l, ls[d]? = some l ∧ n = d + 1 ∧ ∃ m ∈ scanLinks l, m.2 = []) ∧
      validate_links ["[text]()".data] = [Err.emptyLinkUrl 1] ∧
      validate_links ["[](url)".data] = [] ∧ validate_links ["[]()".data] = [] := by
  refine ⟨fun l m hm => scanLinks_text_ne_nil hm, ?_, ?_, by decide, by decide,
    by decide⟩
  · intro ls e he
    unfold validate_links at he
    rw [mem_goLines] at he
    obtain ⟨d, l, -, he⟩ := he
    exact ⟨0 + d + 1,
      matchErrs_all_url (0 + d) (scanLinks l)
        (fun m hm => scanLinks_text_ne_nil hm) e he⟩
  · intro ls n
    unfold validate_links
    rw [mem_goLines]
    constructor
    · rintro ⟨d, l, hdl, he⟩
      rw [matchErrs_url_mem] at he
      obtain ⟨hn, hm⟩ := he
      exact ⟨d, l, hdl, by omega, hm⟩
    · rintro ⟨d, l, hdl, hn, hm⟩
      refine ⟨d, l, hdl, ?_⟩
      rw [matchErrs_url_mem]
      exact ⟨by omega, hm⟩

theorem claim_C1_witness :
    Err.emptyLinkUrl 1 ∈ validate_links ["[text]()".data] ∧
      ∃ n, Err.emptyLinkUrl 1 = Err.emptyLinkUrl n :=
  ⟨by decide,
    claim_C1_amended.2.1 ["[text]()".data] (Err.emptyLinkUrl 1) (by decide)⟩

theorem lastFence_cons_not_fence {l : List Char} {rest : List (List Char)}
    {i : Nat} (hf : ¬ isFence l = true) :
    lastFence i (l :: rest) = lastFence (i + 1) rest := by
  show (match lastFence (i + 1) rest with
    | some j => some j
    | none => if isFence l then some i else none) = _
  cases lastFence (i + 1) rest with
  | some j => rfl
  | none => simp [hf]

theorem lastFence_cons_fence {l : List Char} {rest : List (List Char)}
    {i : Nat} (hf : isFence l = true) :
    lastFence i (l :: rest) =
      match lastFence (i + 1) rest with
      | some j => some j
      | none => some i := by
  show (match lastFence (i + 1) rest with
    | some j => some j
    | none => if isFence l then some i else none) = _
  cases lastFence (i + 1) rest with
  | some j => rfl
  | none => simp [hf]

theorem lastFence_none_iff :
    ∀ (ls : List (List Char)) (i : Nat),
      lastFence i ls = none ↔ countFences ls = 0 := by
  intro ls
  induction ls with
  | nil => intro i; simp [lastFence, countFences]
  | cons l rest ih =>
    intro i
    by_cases hf : isFence l
    · rw [lastFence_cons_fence hf]
      constructor
      · intro h
        cases hlf : lastFence (i + 1) rest with
        | some j => rw [hlf] at h; cases h
        | none => rw [hlf] at h; cases h
      · intro h
        have : countFences (l :: rest) = countFences rest + 1 := by
          simp [countFences, List.countP_cons, hf]
        omega
    · rw [lastFence_cons_not_fence hf]
      have hc : countFences (l :: rest) = countFences rest := by
        simp [countFences, List.countP_cons, hf]
      rw [hc]
      exact ih (i + 1)

theorem cbGo_err_parity :
    ∀ (ls : List (List Char)) (i : Nat) (inB : Bool) (start : Int),
      ((cbGo i inB start ls).1 ≠ [] ↔
        (countFences ls + cond inB 1 0) % 2 = 1) := by
  intro ls
  induction ls with
  | nil =>
    intro i inB start
    cases inB <;> simp [cbGo, countFences]
  | cons l rest ih =>
    intro i inB start
    by_cases hf : isFence l
    · have hcount : countFences (l :: rest) = countFences rest + 1 := by
        simp [countFences, List.countP_cons, hf]
      cases inB with
      | false =>
        have hstep : (cbGo i false start (l :: rest)).1 =
            (cbGo (i + 1) true (Int.ofNat i) rest).1 := by
          simp only [cbGo, if_pos hf]
          rfl
        rw [hstep, ih, hcount]
        simp only [Bool.cond_true, Bool.cond_false]
        try omega
      | true =>
        have hstep : (cbGo i true start (l :: rest)).1 =
            (cbGo (i + 1) false start rest).1 := by
          simp only [cbGo, if_pos hf]
          rfl
        rw [hstep, ih, hcount]
        simp only [Bool.cond_true, Bool.cond_false]
        try omega
    · have hcount : countFences (l :: rest) = countFences rest := by
        simp [countFences, List.countP_cons, hf]
      have hstep : (cbGo i inB start (l :: rest)).1 =
          (cbGo (i + 1) inB start rest).1 := by
        simp only [cbGo, if_neg hf]
      rw [hstep, ih, hcount]

theorem cbGo_err_val :
    ∀ (ls : List (List Char)) (i : Nat) (inB : Bool) (start : Int),
      (cbGo i inB start ls).1 ≠ [] →
      (cbGo i inB start ls).1 =
        [Err.unclosedCode ((match lastFence i ls with
          | some j => (j : Int)
          | none => start) + 1).toNat] := by
  intro ls
  induction ls with
  | nil =>
    intro i inB start hne
    cases inB with
    | false => exact absurd rfl hne
    | true => rfl
  | cons l rest ih =>
    intro i inB start hne
    by_cases hf : isFence l
    · cases inB with
      | false =>
        have hstep : (cbGo i false start (l :: rest)).1 =
            (cbGo (i + 1) true (Int.ofNat i) rest).1 := by
          simp only [cbGo, if_pos hf]
          rfl
        rw [hstep] at hne ⊢
        rw [ih (i + 1) true (Int.ofNat i) hne, lastFence_cons_fence hf]
        cases lastFence (i + 1) rest with
        | some j => rfl
        | none => rfl
      | true =>
        have hstep : (cbGo i true start (l :: rest)).1 =
            (cbGo (i + 1) false start rest).1 := by
          simp only [cbGo, if_pos hf]
          rfl
        rw [hstep] at hne ⊢
        rw [ih (i + 1) false start hne, lastFence_cons_fence hf]
        cases hlf : lastFence (i + 1) rest with
        | some j => rfl
        | none =>
          exfalso
          have hc0 : countFences rest = 0 :=
            (lastFence_none_iff rest (i + 1)).mp hlf
          have hpar := (cbGo_err_parity rest (i + 1) false start).mp hne
          rw [hc0] at hpar
          simp at hpar
    · have hstep : (cbGo i inB start (l :: rest)).1 =
          (cbGo (i + 1) inB start rest).1 := by
        simp only [cbGo, if_neg hf]
      rw [hstep] at hne ⊢
      rw [ih (i + 1) inB start hne, lastFence_cons_not_fence hf]

/-- Claim C4. The code-block check emits the unclosed-code-block error iff
the number of lines starting with three backticks is odd, and in that
case the error carries the 1-based number of the last fence line — which,
the fences pairing up, is exactly the fence that opened the unmatched
block. -/
theorem claim_C4 (ls : List (List Char)) :
    ((validate_code_blocks ls).1 ≠ [] ↔ countFences ls % 2 = 1) ∧
      (countFences ls % 2 = 1 →
        ∃ j, lastFence 0 ls = some j ∧
          (validate_code_blocks ls).1 = [Err.unclosedCode (j + 1)]) := by
  have hpar := cbGo_err_parity ls 0 false (-1)
  simp only [Bool.cond_false, Nat.add_zero] at hpar
  constructor
  · unfold validate_code_blocks
    rw [hpar]
  · intro hodd
    have hne : (validate_code_blocks ls).1 ≠ [] := by
      unfold validate_code_blocks
      rw [hpar]
      exact hodd
    have hcount : countFences ls ≠ 0 := by omega
    have hlf : lastFence 0 ls ≠ none := by
      intro h0
      exact hcount ((lastFence_none_iff ls 0).mp h0)
    obtain ⟨j, hj⟩ := Option.ne_none_iff_exists'.mp hlf
    refine ⟨j, hj, ?_⟩
    have hval := cbGo_err_val ls 0 false (-1) hne
    rw [hj] at hval
    have htn : (((j : Nat) : Int) + 1).toNat = j + 1 := by omega
    rw [← htn]
    exact hval

theorem claim_C4_witness :
    countFences [fenceMarker ++ "py".data] % 2 = 1 ∧
      ∃ j, lastFence 0 [fenceMarker ++ "py".data] = some j ∧
        (validate_code_blocks [fenceMarker ++ "py".data]).1 =
          [Err.unclosedCode (j + 1)] :=
  ⟨by decide, (claim_C4 [fenceMarker ++ "py".data]).2 (by decide)⟩

theorem blankAt_cons_succ (l : List Char) (ls : List (List Char)) (d : Nat) :
    blankAt (l :: ls) (d + 1) ↔ blankAt ls d := by
  simp [blankAt]

theorem blankAt_cons_zero (l : List Char) (ls : List (List Char)) :
    blankAt (l :: ls) 0 ↔ pyStrip l = [] := by
  simp [blankAt]

theorem cblGo_mem :
    ∀ (ls : List (List Char)) (i cnt j : Nat),
      (Warn.manyBlanks j ∈ cblGo i cnt ls ↔
        ∃ d, j = i + d + 1 ∧ blankAt ls d ∧ winOK cnt ls d) := by
  intro ls
  induction ls with
  | nil =>
    intro i cnt j
    simp [cblGo, blankAt]
  | cons l rest ih =>
    intro i cnt j
    by_cases hb : pyStrip l = []
    · have hstep : cblGo i cnt (l :: rest) =
          (if 2 < cnt + 1 then [Warn.manyBlanks (i + 1)] else []) ++
            cblGo (i + 1) (cnt + 1) rest := by
        simp only [cblGo, if_pos hb]
      rw [hstep]
      simp only [List.mem_append]
      constructor
      · rintro (hx | hx)
        · by_cases hcnt : 2 < cnt + 1
          · rw [if_pos hcnt] at hx
            simp only [List.mem_singleton, Warn.manyBlanks.injEq] at hx
            refine ⟨0, by omega, (blankAt_cons_zero _ _).mpr hb, ?_⟩
            show 2 ≤ cnt
            omega
          · rw [if_neg hcnt] at hx
            cases hx
        · rw [ih] at hx
          obtain ⟨d, hj, hbl, hw⟩ := hx
          refine ⟨d + 1, by omega, (blankAt_cons_succ _ _ _).mpr hbl, ?_⟩
          cases d with
          | zero =>
            have hc : 2 ≤ cnt + 1 := hw
            exact ⟨(blankAt_cons_zero _ _).mpr hb, by omega⟩
          | succ d =>
            cases d with
            | zero =>
              obtain ⟨h0, -⟩ := hw
              exact ⟨(blankAt_cons_succ _ _ _).mpr h0, (blankAt_cons_zero _ _).mpr hb⟩
            | succ d =>
              obtain ⟨h1, h2⟩ := hw
              exact ⟨(blankAt_cons_succ _ _ _).mpr h1, (blankAt_cons_succ _ _ _).mpr h2⟩
      · rintro ⟨d, hj, hbl, hw⟩
        cases d with
        | zero =>
          left
          have hcnt : 2 ≤ cnt := hw
          rw [if_pos (by omega)]
          simp only [List.mem_singleton, Warn.manyBlanks.injEq]
          omega
        | succ d =>
          right
          rw [ih]
          refine ⟨d, by omega, (blankAt_cons_succ _ _ _).mp hbl, ?_⟩
          cases d with
          | zero =>
            obtain ⟨-, hc⟩ := hw
            show 2 ≤ cnt + 1
            omega
          | succ d =>
            cases d with
            | zero =>
              obtain ⟨h1, -⟩ := hw
              exact ⟨(blankAt_cons_succ _ _ _).mp h1, by omega⟩
            | succ d =>
              obtain ⟨h1, h2⟩ := hw
              exact ⟨(blankAt_cons_succ _ _ _).mp h1, (blankAt_cons_succ _ _ _).mp h2⟩
    · have hstep : cblGo i cnt (l :: rest) = cblGo (i + 1) 0 rest := by
        simp only [cblGo, if_neg hb]
      rw [hstep, ih]
      constructor
      · rintro ⟨d, hj, hbl, hw⟩
        refine ⟨d + 1, by omega, (blankAt_cons_succ _ _ _).mpr hbl, ?_⟩
        cases d with
        | zero => exact absurd (show (2 : Nat) ≤ 0 from hw) (by omega)
        | succ d =>
          cases d with
          | zero =>
            obtain ⟨-, hc⟩ := hw
            exact absurd hc (by omega)
          | succ d =>
            obtain ⟨h1, h2⟩ := hw
            exact ⟨(blankAt_cons_succ _ _ _).mpr h1, (blankAt_cons_succ _ _ _).mpr h2⟩
      · rintro ⟨d, hj, hbl, hw⟩
        cases d with
        | zero => exact absurd ((blankAt_cons_zero _ _).mp hbl) hb
        | succ d =>
          refine ⟨d, by omega, (blankAt_cons_succ _ _ _).mp hbl, ?_⟩
          cases d with
          | zero =>
            obtain ⟨h0, -⟩ := hw
            exact absurd ((blankAt_cons_zero _ _).mp h0) hb
          | succ d =>
            cases d with
            | zero =>
              obtain ⟨-, h0⟩ := hw
              exact absurd ((blankAt_cons_zero _ _).mp h0) hb
            | succ d =>
              obtain ⟨h1, h2⟩ := hw
              exact ⟨(blankAt_cons_succ _ _ _).mp h1, (blankAt_cons_succ _ _ _).mp h2⟩

/-- Claim C5. The consecutive-blank-lines check warns at a line exactly
when that line and the two lines immediately before it are all blank
(whitespace-only), i.e. at the third or later blank of an unbroken run;
the counter resets on every non-blank line.  In particular three blank
lines followed by content warn exactly once (at line 3), and two blank
lines never warn. -/
theorem claim_C5 :
    (∀ (ls : List (List Char)) (j : Nat),
      Warn.manyBlanks j ∈ validate_consecutive_blank_lines ls ↔
        ∃ d, j = d + 1 ∧ 2 ≤ d ∧ blankAt ls d ∧ blankAt ls (d - 1) ∧
          blankAt ls (d - 2)) ∧
      validate_consecutive_blank_lines [[], [], [], "x".data] =
        [Warn.manyBlanks 3] ∧
      validate_consecutive_blank_lines [[], []] = [] := by
  refine ⟨?_, by decide, by decide⟩
  intro ls j
  unfold validate_consecutive_blank_lines
  rw [cblGo_mem]
  constructor
  · rintro ⟨d, hj, hbl, hw⟩
    cases d with
    | zero => exact absurd (show (2 : Nat) ≤ 0 from hw) (by omega)
    | succ d =>
      cases d with
      | zero =>
        obtain ⟨-, hc⟩ := hw
        exact absurd hc (by omega)
      | succ d =>
        obtain ⟨h1, h2⟩ := hw
        refine ⟨d + 2, by omega, by omega, hbl, ?_, ?_⟩
        · have he : d + 2 - 1 = d + 1 := by omega
          rw [he]
          exact h1
        · have he : d + 2 - 2 = d := by omega
          rw [he]
          exact h2
  · rintro ⟨d, hj, hd2, hbl, h1, h2⟩
    refine ⟨d, by omega, hbl, ?_⟩
    obtain ⟨e, rfl⟩ : ∃ e, d = e + 2 := ⟨d - 2, by omega⟩
    have he1 : e + 2 - 1 = e + 1 := by omega
    have he2 : e + 2 - 2 = e := by omega
    rw [he1] at h1
    rw [he2] at h2
    exact ⟨h1, h2⟩

theorem claim_C5_witness :
    Warn.manyBlanks 3 ∈ validate_consecutive_blank_lines [[], [], [], "x".data] :=
  (claim_C5.1 [[], [], [], "x".data] 3).mpr
    ⟨2, rfl, by omega, ⟨[], rfl, rfl⟩, ⟨[], rfl, rfl⟩, ⟨[], rfl, rfl⟩⟩

theorem h1Go_mem :
    ∀ (ls : List (List Char)) (i : Nat) (e : Err), e ∈ h1Go i ls →
      ∃ d l, ls[d]? = some l ∧ ¬ (pyStrip l = []) ∧
        (∀ d' l', d' < d → ls[d']? = some l' → pyStrip l' = []) ∧
        (e = Err.noH1Title (i + d + 1) ∨ e = Err.emptyH1 (i + d + 1)) := by
  intro ls
  induction ls with
  | nil => intro i e he; cases he
  | cons l rest ih =>
    intro i e he
    by_cases hb : pyStrip l = []
    · rw [show h1Go i (l :: rest) = h1Go (i + 1) rest from by
        simp only [h1Go, if_pos hb]] at he
      obtain ⟨d, l', hdl, hnb, hblank, hform⟩ := ih (i + 1) e he
      refine ⟨d + 1, l', by simpa using hdl, hnb, ?_, ?_⟩
      · intro d' l'' hd' hl''
        cases d' with
        | zero =>
          simp only [List.getElem?_cons_zero, Option.some.injEq] at hl''
          rw [← hl'']
          exact hb
        | succ d' =>
          simp only [List.getElem?_cons_succ] at hl''
          exact hblank d' l'' (by omega) hl''
      · have harith : i + 1 + d + 1 = i + (d + 1) + 1 := by omega
        rw [harith] at hform
        exact hform
    · rw [show h1Go i (l :: rest) =
          (if ¬ (['#', ' '].isPrefixOf l) then [Err.noH1Title (i + 1)]
           else if pyStrip l = ['#'] then [Err.emptyH1 (i + 1)] else []) from by
        simp only [h1Go, if_neg hb]] at he
      refine ⟨0, l, by simp, hb, by omega, ?_⟩
      by_cases hp : ['#', ' '].isPrefixOf l
      · rw [if_neg (by simpa using hp)] at he
        by_cases hsh : pyStrip l = ['#']
        · rw [if_pos hsh] at he
          simp only [List.mem_singleton] at he
          right
          rw [he]
        · rw [if_neg hsh] at he
          cases he
      · rw [if_pos (by simpa using hp)] at he
        simp only [List.mem_singleton] at he
        left
        rw [he]

theorem emptyHeadingB_all {l : List Char} (h : emptyHeadingB l = true) :
    l.all (fun c => c = '#' || pyIsSpace c) = true := by
  unfold emptyHeadingB at h
  simp only [Bool.and_eq_true, decide_eq_true_eq] at h
  obtain ⟨⟨-, -⟩, hall⟩ := h
  rw [List.all_eq_true]
  intro c hc
  have hsplit : l = l.take (leadingHashes l) ++ l.drop (leadingHashes l) :=
    (List.take_append_drop _ _).symm
  rw [hsplit] at hc
  rcases List.mem_append.mp hc with hc2 | hc2
  · have htw : l.take (leadingHashes l) = l.takeWhile (fun c => c = '#') := by
      unfold leadingHashes
      exact (List.prefix_iff_eq_take.mp (List.takeWhile_prefix _)).symm
    rw [htw] at hc2
    have hh := List.mem_takeWhile_imp hc2
    simp only [decide_eq_true_eq] at hh
    simp [hh]
  · have hs := List.all_eq_true.mp hall c hc2
    simp [hs]

/-- Claim C7. The title check emits only at the first non-blank line, and
the empty-headings check emits only at lines matching `^(#{1,6})\s*$`;
hence the two checks fire at the same line number only when that line is
the first non-blank line of the document and consists solely of hash
characters and whitespace. -/
theorem claim_C7 (ls : List (List Char)) (n : Nat)
    (h1 : Err.noH1Title n ∈ validate_h1_title ls ∨
      Err.emptyH1 n ∈ validate_h1_title ls)
    (h6 : Err.emptyHeading n ∈ validate_empty_headings ls) :
    ∃ i l, n = i + 1 ∧ ls[i]? = some l ∧ ¬ (pyStrip l = []) ∧
      (∀ j l', j < i → ls[j]? = some l' → pyStrip l' = []) ∧
      emptyHeadingB l = true ∧
      l.all (fun c => c = '#' || pyIsSpace c) = true := by
  have h1m : ∃ d l, ls[d]? = some l ∧ ¬ (pyStrip l = []) ∧
      (∀ d' l', d' < d → ls[d']? = some l' → pyStrip l' = []) ∧ n = d + 1 := by
    cases h1 with
    | inl h =>
      obtain ⟨d, l, hdl, hnb, hblank, hform⟩ := h1Go_mem ls 0 _ h
      refine ⟨d, l, hdl, hnb, hblank, ?_⟩
      cases hform with
      | inl hf =>
        have := Err.noH1Title.injEq n (0 + d + 1) ▸ hf
        simp only [Err.noH1Title.injEq] at hf
        omega
      | inr hf => cases hf
    | inr h =>
      obtain ⟨d, l, hdl, hnb, hblank, hform⟩ := h1Go_mem ls 0 _ h
      refine ⟨d, l, hdl, hnb, hblank, ?_⟩
      cases hform with
      | inl hf => cases hf
      | inr hf =>
        simp only [Err.emptyH1.injEq] at hf
        omega
  obtain ⟨d, l, hdl, hnb, hblank, hn⟩ := h1m
  unfold validate_empty_headings at h6
  rw [mem_goLines] at h6
  obtain ⟨d2, l2, hdl2, h6m⟩ := h6
  have hd2 : emptyHeadingB l2 = true ∧ n = d2 + 1 := by
    by_cases hB : emptyHeadingB l2
    · rw [if_pos hB] at h6m
      simp only [List.mem_singleton, Err.emptyHeading.injEq] at h6m
      exact ⟨hB, by omega⟩
    · rw [if_neg hB] at h6m
      cases h6m
  obtain ⟨hB2, hn2⟩ := hd2
  have hdd : d2 = d := by omega
  rw [hdd] at hdl2
  have hll : l2 = l := by
    rw [hdl] at hdl2
    injection hdl2 with h
    exact h.symm
  exact ⟨d, l, hn, hdl, hnb, hblank, hll ▸ hB2, emptyHeadingB_all (hll ▸ hB2)⟩

theorem claim_C7_witness :
    (Err.noH1Title 1 ∈ validate_h1_title ["#".data] ∨
      Err.emptyH1 1 ∈ validate_h1_title ["#".data]) ∧
      Err.emptyHeading 1 ∈ validate_empty_headings ["#".data] ∧
      ∃ i l, 1 = i + 1 ∧ (["#".data] : List (List Char))[i]? = some l ∧
        ¬ (pyStrip l = []) ∧
        (∀ j l', j < i → (["#".data] : List (List Char))[j]? = some l' →
          pyStrip l' = []) ∧
        emptyHeadingB l = true ∧
        l.all (fun c => c = '#' || pyIsSpace c) = true :=
  ⟨Or.inl (by decide), by decide,
    claim_C7 ["#".data] 1 (Or.inl (by decide)) (by decide)⟩

theorem snd_append {p q : List Char} (h : 1 < p.length) : (p ++ q)[1]? = p[1]? := by
  rw [List.getElem?_append, if_pos h]

theorem ne_of_snd {xs ys : List Char} (h : ¬ (xs[1]? = ys[1]?)) : ¬ (xs = ys) :=
  fun he => h (by rw [he])

theorem sndTitle (name : List Char) :
    ("\nValidation Report: ".data ++ name)[1]? = some (Char.ofNat 86) := by
  rw [snd_append (by decide)]
  decide

theorem sndItem (x : List Char) :
    ("  - ".data ++ x)[1]? = some (Char.ofNat 32) := by
  rw [snd_append (by decide)]
  decide

theorem sndErrHdr (xs : List Char) :
    ("\nERRORS (".data ++ xs ++ "):".data)[1]? = some (Char.ofNat 69) := by
  have hl : 1 < ("\nERRORS (".data ++ xs).length := by
    rw [List.length_append]
    have h9 : 1 < ("\nERRORS (".data).length := by decide
    omega
  rw [snd_append hl, snd_append (by decide)]
  decide

theorem sndWarnHdr (xs : List Char) :
    ("\nWARNINGS (".data ++ xs ++ "):".data)[1]? = some (Char.ofNat 87) := by
  have hl : 1 < ("\nWARNINGS (".data ++ xs).length := by
    rw [List.length_append]
    have h9 : 1 < ("\nWARNINGS (".data).length := by decide
    omega
  rw [snd_append hl, snd_append (by decide)]
  decide

theorem neTitle {t : List Char} (name : List Char)
    (ht : ¬ (t[1]? = some (Char.ofNat 86))) :
    ¬ (t = "\nValidation Report: ".data ++ name) := by
  intro he
  rw [he, sndTitle name] at ht
  exact ht rfl

theorem neItemR {t : List Char} (x : List Char)
    (ht : ¬ (t[1]? = some (Char.ofNat 32))) :
    ¬ ("  - ".data ++ x = t) := by
  intro he
  rw [← he, sndItem x] at ht
  exact ht rfl

theorem neErrHdr {t : List Char} (xs : List Char)
    (ht : ¬ (t[1]? = some (Char.ofNat 69))) :
    ¬ (t = "\nERRORS (".data ++ xs ++ "):".data) := by
  intro he
  rw [he, sndErrHdr xs] at ht
  exact ht rfl

theorem neWarnHdr {t : List Char} (xs : List Char)
    (ht : ¬ (t[1]? = some (Char.ofNat 87))) :
    ¬ (t = "\nWARNINGS (".data ++ xs ++ "):".data) := by
  intro he
  rw [he, sndWarnHdr xs] at ht
  exact ht rfl

theorem concatPW : "\nStatus: ".data ++ "PASSED (with warnings)".data =
    "\nStatus: PASSED (with warnings)".data := by decide

theorem concatF : "\nStatus: ".data ++ "FAILED".data = "\nStatus: FAILED".data := by
  decide

theorem get_report_both_empty (name : List Char) :
    get_report name [] [] =
      ["\nValidation Report: ".data ++ name, sep70, "Status: PASSED".data,
       "No issues found.".data, sep70] := by
  simp [get_report]

theorem get_report_err_empty (name : List Char) (warnings : List (List Char))
    (hw : warnings ≠ []) :
    get_report name [] warnings =
      ["\nValidation Report: ".data ++ name, sep70,
       "\nWARNINGS (".data ++ natToChars warnings.length ++ "):".data] ++
      warnings.map (fun w => "  - ".data ++ w) ++
      ["\nStatus: PASSED (with warnings)".data, sep70] := by
  simp [get_report, hw, concatPW]

theorem get_report_warn_empty (name : List Char) (errors : List (List Char))
    (he : errors ≠ []) :
    get_report name errors [] =
      ["\nValidation Report: ".data ++ name, sep70,
       "\nERRORS (".data ++ natToChars errors.length ++ "):".data] ++
      errors.map (fun e => "  - ".data ++ e) ++
      ["\nStatus: FAILED".data, sep70] := by
  simp [get_report, he, concatF]

theorem get_report_both (name : List Char) (errors warnings : List (List Char))
    (he : errors ≠ []) (hw : warnings ≠ []) :
    get_report name errors warnings =
      ["\nValidation Report: ".data ++ name, sep70,
       "\nERRORS (".data ++ natToChars errors.length ++ "):".data] ++
      errors.map (fun e => "  - ".data ++ e) ++
      ["\nWARNINGS (".data ++ natToChars warnings.length ++ "):".data] ++
      warnings.map (fun w => "  - ".data ++ w) ++
      ["\nStatus: FAILED".data, sep70] := by
  simp [get_report, he, hw, concatF]

theorem report_failed_mem (name : List Char) (errors warnings : List (List Char)) :
    "\nStatus: FAILED".data ∈ get_report name errors warnings ↔ errors ≠ [] := by
  by_cases he : errors = []
  · subst he
    constructor
    · intro hmem
      exfalso
      by_cases hw : warnings = []
      · subst hw
        rw [get_report_both_empty] at hmem
        simp only [List.mem_cons, List.not_mem_nil, or_false] at hmem
        rcases hmem with h | h | h | h | h
        · exact neTitle name (by decide) h
        · exact absurd h (by decide)
        · exact absurd h (by decide)
        · exact absurd h (by decide)
        · exact absurd h (by decide)
      · rw [get_report_err_empty name warnings hw] at hmem
        simp only [List.mem_append, List.mem_cons, List.mem_map,
          List.not_mem_nil, or_false] at hmem
        rcases hmem with ((h | h | h) | ⟨x, -, h⟩) | h | h
        · exact neTitle name (by decide) h
        · exact absurd h (by decide)
        · exact neWarnHdr (natToChars warnings.length) (by decide) h
        · exact neItemR x (by decide) h
        · exact absurd h (by decide)
        · exact absurd h (by decide)
    · intro hne
      exact absurd rfl hne
  · constructor
    · intro _
      exact he
    · intro _
      by_cases hw : warnings = []
      · subst hw
        rw [get_report_warn_empty name errors he]
        simp
      · rw [get_report_both name errors warnings he hw]
        simp

theorem report_passed_mem (name : List Char) (errors warnings : List (List Char)) :
    ("Status: PASSED".data ∈ get_report name errors warnings ∧
      "No issues found.".data ∈ get_report name errors warnings) ↔
      (errors = [] ∧ warnings = []) := by
  by_cases he : errors = []
  · by_cases hw : warnings = []
    · subst he
      subst hw
      refine ⟨fun _ => ⟨rfl, rfl⟩, fun _ => ⟨?_, ?_⟩⟩
      · rw [get_report_both_empty]
        simp
      · rw [get_report_both_empty]
        simp
    · subst he
      constructor
      · rintro ⟨hP, -⟩
        exfalso
        rw [get_report_err_empty name warnings hw] at hP
        simp only [List.mem_append, List.mem_cons, List.mem_map,
          List.not_mem_nil, or_false] at hP
        rcases hP with ((h | h | h) | ⟨x, -, h⟩) | h | h
        · exact neTitle name (by decide) h
        · exact absurd h (by decide)
        · exact neWarnHdr (natToChars warnings.length) (by decide) h
        · exact neItemR x (by decide) h
        · exact absurd h (by decide)
        · exact absurd h (by decide)
      · rintro ⟨-, hwq⟩
        exact absurd hwq hw
  · constructor
    · rintro ⟨hP, -⟩
      exfalso
      by_cases hw : warnings = []
      · subst hw
        rw [get_report_warn_empty name errors he] at hP
        simp only [List.mem_append, List.mem_cons, List.mem_map,
          List.not_mem_nil, or_false] at hP
        rcases hP with ((h | h | h) | ⟨x, -, h⟩) | h | h
        · exact neTitle name (by decide) h
        · exact absurd h (by decide)
        · exact neErrHdr (natToChars errors.length) (by decide) h
        · exact neItemR x (by decide) h
        · exact absurd h (by decide)
        · exact absurd h (by decide)
      · rw [get_report_both name errors warnings he hw] at hP
        simp only [List.mem_append, List.mem_cons, List.mem_map,
          List.not_mem_nil, or_false] at hP
        rcases hP with ((((h | h | h) | ⟨x, -, h⟩) | h) | ⟨x, -, h⟩) | h | h
        · exact neTitle name (by decide) h
        · exact absurd h (by decide)
        · exact neErrHdr (natToChars errors.length) (by decide) h
        · exact neItemR x (by decide) h
        · exact neWarnHdr (natToChars warnings.length) (by decide) h
        · exact neItemR x (by decide) h
        · exact absurd h (by decide)
        · exact absurd h (by decide)
    · rintro ⟨heq, -⟩
      exact absurd heq he

theorem report_errhdr_mem (name : List Char) (errors warnings : List (List Char)) :
    ("\nERRORS (".data ++ natToChars errors.length ++ "):".data) ∈
      get_report name errors warnings ↔ errors ≠ [] := by
  by_cases he : errors = []
  · subst he
    constructor
    · intro hmem
      exfalso
      by_cases hw : warnings = []
      · subst hw
        rw [get_report_both_empty] at hmem
        simp only [List.mem_cons, List.not_mem_nil, or_false] at hmem
        rcases hmem with h | h | h | h | h
        · exact neTitle name (by decide) h
        · exact absurd h (by decide)
        · exact absurd h (by decide)
        · exact absurd h (by decide)
        · exact absurd h (by decide)
      · rw [get_report_err_empty name warnings hw] at hmem
        simp only [List.mem_append, List.mem_cons, List.mem_map,
          List.not_mem_nil, or_false] at hmem
        rcases hmem with ((h | h | h) | ⟨x, -, h⟩) | h | h
        · exact neTitle name (by decide) h
        · exact absurd h (by decide)
        · exact neWarnHdr (natToChars warnings.length) (by decide) h
        · exact neItemR x (by decide) h
        · exact absurd h (by decide)
        · exact absurd h (by decide)
    · intro hne
      exact absurd rfl hne
  · constructor
    · intro _
      exact he
    · intro _
      by_cases hw : warnings = []
      · subst hw
        rw [get_report_warn_empty name errors he]
        simp
      · rw [get_report_both name errors warnings he hw]
        simp

theorem report_warnhdr_mem (name : List Char) (errors warnings : List (List Char)) :
    ("\nWARNINGS (".data ++ natToChars warnings.length ++ "):".data) ∈
      get_report name errors warnings ↔ warnings ≠ [] := by
  by_cases hw : warnings = []
  · subst hw
    constructor
    · intro hmem
      exfalso
      by_cases he : errors = []
      · subst he
        rw [get_report_both_empty] at hmem
        simp only [List.mem_cons, List.not_mem_nil, or_false] at hmem
        rcases hmem with h | h | h | h | h
        · exact neTitle name (by decide) h
        · exact absurd h (by decide)
        · exact absurd h (by decide)
        · exact absurd h (by decide)
        · exact absurd h (by decide)
      · rw [get_report_warn_empty name errors he] at hmem
        simp only [List.mem_append, List.mem_cons, List.mem_map,
          List.not_mem_nil, or_false] at hmem
        rcases hmem with ((h | h | h) | ⟨x, -, h⟩) | h | h
        · exact neTitle name (by decide) h
        · exact absurd h (by decide)
        · exact neErrHdr (natToChars errors.length) (by decide) h
        · exact neItemR x (by decide) h
        · exact absurd h (by decide)
        · exact absurd h (by decide)
    · intro hne
      exact absurd rfl hne
  · constructor
    · intro _
      exact hw
    · intro _
      by_cases he : errors = []
      · subst he
        rw [get_report_err_empty name warnings hw]
        simp
      · rw [get_report_both name errors warnings he hw]
        simp

theorem report_pww_mem (name : List Char) (errors warnings : List (List Char)) :
    "\nStatus: PASSED (with warnings)".data ∈ get_report name errors warnings ↔
      (errors = [] ∧ warnings ≠ []) := by
  by_cases he : errors = []
  · by_cases hw : warnings = []
    · subst he
      subst hw
      constructor
      · intro hmem
        exfalso
        rw [get_report_both_empty] at hmem
        simp only [List.mem_cons, List.not_mem_nil, or_false] at hmem
        rcases hmem with h | h | h | h | h
        · exact neTitle name (by decide) h
        · exact absurd h (by decide)
        · exact absurd h (by decide)
        · exact absurd h (by decide)
        · exact absurd h (by decide)
      · rintro ⟨-, hwq⟩
        exact absurd rfl hwq
    · subst he
      refine ⟨fun _ => ⟨rfl, hw⟩, fun _ => ?_⟩
      rw [get_report_err_empty name warnings hw]
      simp
  · constructor
    · intro hmem
      exfalso
      by_cases hw : warnings = []
      · subst hw
        rw [get_report_warn_empty name errors he] at hmem
        simp only [List.mem_append, List.mem_cons, List.mem_map,
          List.not_mem_nil, or_false] at hmem
        rcases hmem with ((h | h | h) | ⟨x, -, h⟩) | h | h
        · exact neTitle name (by decide) h
        · exact absurd h (by decide)
        · exact neErrHdr (natToChars errors.length) (by decide) h
        · exact neItemR x (by decide) h
        · exact absurd h (by decide)
        · exact absurd h (by decide)
      · rw [get_report_both name errors warnings he hw] at hmem
        simp only [List.mem_append, List.mem_cons, List.mem_map,
          List.not_mem_nil, or_false] at hmem
        rcases hmem with ((((h | h | h) | ⟨x, -, h⟩) | h) | ⟨x, -, h⟩) | h | h
        · exact neTitle name (by decide) h
        · exact absurd h (by decide)
        · exact neErrHdr (natToChars errors.length) (by decide) h
        · exact neItemR x (by decide) h
        · exact neWarnHdr (natToChars warnings.length) (by decide) h
        · exact neItemR x (by decide) h
        · exact absurd h (by decide)
        · exact absurd h (by decide)
    · rintro ⟨heq, -⟩
      exact absurd heq he

/-- Claim C8. The report contains the PASSED / no-issues lines exactly when
both finding lists are empty; it contains the ERRORS header iff there are
errors, the WARNINGS header iff there are warnings, the FAILED status
line iff there is at least one error, and the PASSED-with-warnings status
line iff there are warnings but no errors. -/
theorem claim_C8 (name : List Char) (errors warnings : List (List Char)) :
    (("Status: PASSED".data ∈ get_report name errors warnings ∧
        "No issues found.".data ∈ get_report name errors warnings) ↔
      (errors = [] ∧ warnings = [])) ∧
      (("\nERRORS (".data ++ natToChars errors.length ++ "):".data) ∈
        get_report name errors warnings ↔ errors ≠ []) ∧
      (("\nWARNINGS (".data ++ natToChars warnings.length ++ "):".data) ∈
        get_report name errors warnings ↔ warnings ≠ []) ∧
      ("\nStatus: FAILED".data ∈ get_report name errors warnings ↔
        errors ≠ []) ∧
      ("\nStatus: PASSED (with warnings)".data ∈ get_report name errors warnings ↔
        (errors = [] ∧ warnings ≠ [])) :=
  ⟨report_passed_mem name errors warnings, report_errhdr_mem name errors warnings,
    report_warnhdr_mem name errors warnings, report_failed_mem name errors warnings,
    report_pww_mem name errors warnings⟩

theorem claim_C8_witness :
    "\nStatus: FAILED".data ∈ get_report ("a.md".data) ["boom".data] [] :=
  (claim_C8 ("a.md".data) ["boom".data] []).2.2.2.1.mpr (by decide)

end ValidateMarkdown
